import Mathlib

/-!
A shallow embedding of `dependenpy/utils.py` (class `DependencyMatrix`) in Lean 4,
together with theorems checking the natural-language specification against it.

Modelling conventions:
* Python strings are Lean `String` values; character-level functions
  (`os.path.splitext`, `str.replace`, `str.startswith`) are implemented on the
  underlying character list, structurally recursive so that the kernel can
  evaluate them.
* Python dicts whose key sets vary at runtime (module entries, import-edge
  entries) are association lists `List (String × PyVal)`; key lookup returns the
  first binding, `del` removes the binding and raises `KeyError` when absent,
  exactly as in Python.  Dict keys are unique in every dict the program builds.
* Python exceptions are modelled with `Except String`; the error string names
  the Python exception that the corresponding operation raises.
* The file system and the AST import extractor are external collaborators of
  the core (spec section 2); they are passed in as explicit parameters: a
  directory tree value for `os.listdir`/`os.path.isdir` and a map from file
  path to the list of `ast.ImportFrom` declarations found in that file.
* Mutation of instance attributes is modelled by explicit state passing on a
  `PyState` record mirroring the attributes set in `DependencyMatrix.__init__`.
-/

set_option maxRecDepth 4000

/-- One `ast.ImportFrom` declaration as delivered by the statement extractor:
`node.module` (which may be `None`), `node.level`, and the names of
`node.names`.  Mirrors the fields read by `parse_imports`. -/
structure RawImport where
  moduleName : Option String
  level : Nat
  names : List String
deriving DecidableEq

/-- One value of the `sum_from` ordered dict built by `parse_imports`: the dict
literal with keys `by` (the importing module name; a string in every module
entry the program builds), `from` (the resolved target dotted name) and
`import` (the imported symbol names). -/
structure SumEntry where
  byName : String
  fromName : String
  symbolNames : List String
deriving DecidableEq

/-- Append symbol names, modelling `sum_from[mod]['import'] += [...]`. -/
def SumEntry.addNames (e : SumEntry) (ns : List String) : SumEntry :=
  { e with symbolNames := e.symbolNames ++ ns }

/-- A Python value occurring in the dicts built by `DependencyMatrix`:
strings, ints, lists of strings (the collapsed `name` lists built by
`_build_up_matrix`), and lists of the `by`/`from`/`import` dicts built by
`parse_imports` (the value of the `imports` key of an edge). -/
inductive PyVal where
  | str (s : String)
  | int (n : Int)
  | strList (l : List String)
  | declList (l : List SumEntry)
deriving DecidableEq

/-- A Python dict with string keys, as an association list in insertion
order.  Used for module entries and import-edge entries. -/
abbrev Entry := List (String × PyVal)

/-- First binding of a key, i.e. Python `d[k]` when it succeeds (`none` models
the `KeyError` situation).  Keys are unique in every dict the program makes. -/
def lookupKey (e : Entry) (k : String) : Option PyVal :=
  match e with
  | [] => none
  | (k2, v) :: rest => if k2 = k then some v else lookupKey rest k

/-- The keys of a dict, in order. -/
def keysOf (e : Entry) : List String := e.map Prod.fst

/-- Removal of a key (the effect of a successful `del d[k]`). -/
def delKey (e : Entry) (k : String) : Entry :=
  e.filter (fun p => decide (p.1 ≠ k))

/-- Python `del d[k]`: removes the binding, `KeyError` when the key is absent. -/
def pyDelete (e : Entry) (k : String) : Except String Entry :=
  if k ∈ keysOf e then .ok (delKey e k) else .error "KeyError"

/-- Python list subscript `l[i]` for an int index: negative indices count from
the end, out-of-range raises `IndexError`. -/
def pyListGet {α : Type} (l : List α) (i : Int) : Except String α :=
  let j : Int := if i < 0 then i + l.length else i
  if h : 0 ≤ j ∧ j < l.length then
    .ok (l.get ⟨j.toNat, by omega⟩)
  else
    .error "IndexError: list index out of range"

/-- Python list item assignment `l[i] = a`, with the same index rules. -/
def pyListSet {α : Type} (l : List α) (i : Int) (a : α) : Except String (List α) :=
  let j : Int := if i < 0 then i + l.length else i
  if 0 ≤ j ∧ j < l.length then
    .ok (l.set j.toNat a)
  else
    .error "IndexError: list assignment index out of range"

/-- Python `max` over a list of ints; raises `ValueError` on an empty list. -/
def pyMax : List Int → Except String Int
  | [] => .error "ValueError: max() arg is an empty sequence"
  | x :: xs => .ok (xs.foldl max x)

/-- Python `str.startswith`: prefix test on the character sequence. -/
def pyStartsWith (s pre : String) : Bool :=
  pre.data.isPrefixOf s.data

/-- Python `str.split('.')` at the character level: the dot-separated
segments, with empty segments kept ( `"".split('.') == ['']` ). -/
def splitDot : List Char → List (List Char)
  | [] => [[]]
  | c :: rest =>
    let r := splitDot rest
    if c = '.' then [] :: r
    else
      match r with
      | h :: t => (c :: h) :: t
      | [] => [[c]]

/-- Index of the last occurrence of a character, Python `str.rfind` restricted
to single-character needles (`none` for the -1 result). -/
def rfindIdxAux (c : Char) : List Char → Option Nat
  | [] => none
  | x :: xs =>
    match rfindIdxAux c xs with
    | some i => some (i + 1)
    | none => if x = c then some 0 else none

/-- The root part of `os.path.splitext` (`splitext(p)[0]`), following the
CPython implementation: find the last `/` and the last `.`; when the dot is
after the separator and at least one character strictly between them is not a
dot, split at the dot, otherwise return the whole string. -/
def splitextRoot (p : List Char) : List Char :=
  let dotIndex : Int := match rfindIdxAux '.' p with | some i => (i : Int) | none => -1
  let sepIndex : Int := match rfindIdxAux '/' p with | some i => (i : Int) | none => -1
  if sepIndex < dotIndex then
    let between := (p.take dotIndex.toNat).drop (sepIndex + 1).toNat
    if between.all (fun c => c = '.') then p else p.take dotIndex.toNat
  else p

/-- `os.path.splitext(s)[0]` on strings. -/
def stripExt (s : String) : String := String.mk (splitextRoot s.data)

/-- `os.path.dirname` for the slash-separated paths the program builds: the
part before the last `/`, empty when there is no `/`. -/
def dirname (s : String) : String :=
  match rfindIdxAux '/' s.data with
  | some i => String.mk (s.data.take i)
  | none => ""

/-- Python `str.replace('/', '.')`: single-character replacement. -/
def replaceSlashDot (s : String) : String :=
  String.mk (s.data.map (fun c => if c = '/' then '.' else c))

/-- A dotted name joined from its segments (`'.'.join` of the segments). -/
def joinDot : List String → String
  | [] => ""
  | [s] => s
  | s :: rest => s ++ "." ++ joinDot rest

/-- Character-level counterpart of `joinDot`. -/
def joinDotL : List (List Char) → List Char
  | [] => []
  | [l] => l
  | l :: rest => l ++ '.' :: joinDotL rest

/-- The `while` loop of `parse_imports` that rewrites a relative import:
`os.path.splitext` applied `level` times to the importing module name
(once before the loop, `level - 1` times inside it). -/
def stripIter : Nat → String → String
  | 0, s => s
  | n + 1, s => stripIter n (stripExt s)

/-- The relative-import rewriting step of `parse_imports`: for a declaration
with module `nodeModule` and level `level` inside the module named `name`,
the resolved absolute dotted target.  For `level = 0` the declared module is
used as is (`mod = node.module`). -/
def rewriteRelative (name : String) (level : Nat) (nodeModule : String) : String :=
  if level > 0 then stripIter level name ++ "." ++ nodeModule else nodeModule

/-- A matrix as stored in `self.matrices`: the dict with keys `modules` and
`imports`. -/
structure PyMatrix where
  modules : List Entry
  imports : List Entry
deriving DecidableEq

/-- The instance attributes of `DependencyMatrix` set in `__init__`
(`path_resolver` is a collaborator passed separately; the leading underscores
of `_inside` and the three flags are dropped). -/
structure PyState where
  packages : List (List String)
  groups : List String
  modules : List Entry
  imports : List Entry
  max_depth : Int
  matrices : List (Option PyMatrix)
  inside : List (String × Bool)
  modules_built : Bool
  imports_built : Bool
  matrices_built : Bool
deriving DecidableEq

/-- The options dict (keys of `DEFAULT_OPTIONS`). -/
structure PyOptions where
  group_name : Bool
  group_index : Bool
  source_name : Bool
  source_index : Bool
  target_name : Bool
  target_index : Bool
  imports : Bool
  cardinal : Bool
deriving DecidableEq

/-- `DEFAULT_OPTIONS`: every attribute retained. -/
def DEFAULT_OPTIONS : PyOptions :=
  ⟨true, true, true, true, true, true, true, true⟩

/-- All options disabled. -/
def allFalseOptions : PyOptions :=
  ⟨false, false, false, false, false, false, false, false⟩

/-- A file-system tree as seen by `os.listdir` / `os.path.isdir`: either a
plain file or a directory with its entries in listing order. -/
inductive FSTree where
  | file (fname : String)
  | dir (dname : String) (children : List FSTree)

/-- Python `str.endswith`: suffix test on the character sequence. -/
def pyEndsWith (s suf : String) : Bool :=
  suf.data.isSuffixOf s.data

/-- `os.path.join` for the relative, slash-free components the walk uses. -/
def pyJoin (a b : String) : String :=
  if a = "" then b else a ++ "/" ++ b

mutual
/-- One iteration of the `for item in os.listdir(path)` loop of
`DependencyMatrix._walk`: a directory recurses with an extended prefix, a
`*.py` file contributes one module entry (with `self.groups[group]` looked
up as a Python list subscript), any other file contributes nothing. -/
def walkTree (groups : List String) (nm : String) (path : String) (group : Nat)
    (pfx : String) : FSTree → Except String (List Entry)
  | .file fname =>
    let sub_item := pyJoin path fname
    if pyEndsWith fname ".py" then
      match pyListGet groups (group : Int) with
      | .error e => .error e
      | .ok gname =>
        .ok [[("name", PyVal.str (nm ++ "." ++ replaceSlashDot (stripExt (pfx ++ fname)))),
              ("path", PyVal.str sub_item),
              ("group_index", PyVal.int group),
              ("group_name", PyVal.str gname)]]
    else .ok []
  | .dir dname children =>
    walkList groups nm (pyJoin path dname) group (pfx ++ dname ++ "/") children

/-- `DependencyMatrix._walk` over the entries of one directory, concatenating
the results in listing order. -/
def walkList (groups : List String) (nm : String) (path : String) (group : Nat)
    (pfx : String) : List FSTree → Except String (List Entry)
  | [] => .ok []
  | t :: ts =>
    match walkTree groups nm path group pfx t with
    | .error e => .error e
    | .ok r =>
      match walkList groups nm path group pfx ts with
      | .error e => .error e
      | .ok rest => .ok (r ++ rest)
end

/-- The inner `for package in package_group` loop of `build_modules`: an
unresolved package (`path_resolver` returned a falsy value) is skipped with
`continue`; a resolved one contributes `self._walk(package,
os.path.dirname(module_path), group)`. -/
def collectGroup (resolver : String → Option String) (fs : String → List FSTree)
    (groups : List String) (group : Nat) : List String → Except String (List Entry)
  | [] => .ok []
  | package :: rest =>
    match resolver package with
    | none => collectGroup resolver fs groups group rest
    | some module_path =>
      let dirp := dirname module_path
      match walkList groups package dirp group "" (fs dirp) with
      | .error e => .error e
      | .ok ms =>
        match collectGroup resolver fs groups group rest with
        | .error e => .error e
        | .ok more => .ok (ms ++ more)

/-- The outer `for package_group in self.packages` loop of `build_modules`,
with the `group` counter incremented once per group. -/
def collectModules (resolver : String → Option String) (fs : String → List FSTree)
    (groups : List String) : List (List String) → Nat → Except String (List Entry)
  | [], _ => .ok []
  | pg :: rest, group =>
    match collectGroup resolver fs groups group pg with
    | .error e => .error e
    | .ok ms =>
      match collectModules resolver fs groups rest (group + 1) with
      | .error e => .error e
      | .ok more => .ok (ms ++ more)

/-- `len(m['name'].split('.'))` for one module entry. -/
def nameSegCount (e : Entry) : Except String Int :=
  match lookupKey e "name" with
  | some (.str s) => .ok ((splitDot s.data).length : Int)
  | some _ => .error "AttributeError: split"
  | none => .error "KeyError: name"

/-- The list comprehension `[len(m['name'].split('.')) for m in self.modules]`. -/
def segCounts : List Entry → Except String (List Int)
  | [] => .ok []
  | e :: rest =>
    match nameSegCount e with
    | .error er => .error er
    | .ok n =>
      match segCounts rest with
      | .error er => .error er
      | .ok ns => .ok (n :: ns)

/-- `DependencyMatrix.build_modules`: no-op when already built; otherwise the
collected walk results extend `self.modules` and `self.max_depth` becomes
`max([len(m['name'].split('.')) for m in self.modules])` (Python `max`
raises `ValueError` when no module was discovered). -/
def build_modules (resolver : String → Option String) (fs : String → List FSTree)
    (st : PyState) : Except String PyState :=
  if st.modules_built then .ok st else
  match collectModules resolver fs st.groups st.packages 0 with
  | .error e => .error e
  | .ok collected =>
    let newModules := st.modules ++ collected
    match segCounts newModules with
    | .error e => .error e
    | .ok lens =>
      match pyMax lens with
      | .error e => .error e
      | .ok md => .ok { st with modules := newModules, max_depth := md, modules_built := true }

/-- The uncached test of `DependencyMatrix.contains`: the module equals a
configured package name or starts with a package name followed by a dot. -/
def containsPure (packages : List (List String)) (module : String) : Bool :=
  packages.any (fun pg =>
    pg.any (fun package => module = package || pyStartsWith module (package ++ ".")))

/-- `DependencyMatrix.contains` with its `self._inside` memo: a cached answer
is returned as is, otherwise the computed answer is cached. -/
def containsFn (st : PyState) (module : String) : Bool × PyState :=
  match st.inside.lookup module with
  | some b => (b, st)
  | none =>
    let r := containsPure st.packages module
    (r, { st with inside := st.inside ++ [(module, r)] })

/-- The body of `parse_imports` for one resolved target name `mod`: kept only
when `self.contains(mod)` holds (the `force` parameter keeps its default
`False`); a previous entry for `mod` (always a nonempty, hence truthy, dict)
gets the symbol names appended, otherwise a new `by`/`from`/`import` dict is
inserted. -/
def sumFromStep (module : Entry) (st : PyState) (acc : List (String × SumEntry))
    (mod : String) (names : List String) : Except String (List (String × SumEntry) × PyState) :=
  let cs := containsFn st mod
  if cs.1 then
    match acc.lookup mod with
    | some _ =>
      .ok (acc.map (fun p => if p.1 = mod then (p.1, p.2.addNames names) else p), cs.2)
    | none =>
      match lookupKey module "name" with
      | some (.str mname) => .ok (acc ++ [(mod, ⟨mname, mod, names⟩)], cs.2)
      | some _ => .error "TypeError: name is not a string"
      | none => .error "KeyError: name"
  else .ok (acc, cs.2)

/-- The `for node in ast.parse(code).body` loop of `parse_imports` over the
`ImportFrom` declarations of one file: a declaration without a module is
skipped; a relative one is rewritten with the importing module name. -/
def parseImportsLoop (module : Entry) : List RawImport → List (String × SumEntry) → PyState →
    Except String (List (String × SumEntry) × PyState)
  | [], acc, st => .ok (acc, st)
  | d :: rest, acc, st =>
    match d.moduleName with
    | none => parseImportsLoop module rest acc st
    | some nodeModule =>
      if d.level > 0 then
        match lookupKey module "name" with
        | some (.str mname) =>
          match sumFromStep module st acc (rewriteRelative mname d.level nodeModule) d.names with
          | .error e => .error e
          | .ok (acc2, st2) => parseImportsLoop module rest acc2 st2
        | some _ => .error "AttributeError: splitext"
        | none => .error "KeyError: name"
      else
        match sumFromStep module st acc nodeModule d.names with
        | .error e => .error e
        | .ok (acc2, st2) => parseImportsLoop module rest acc2 st2

/-- `DependencyMatrix.parse_imports`: the ordered dict `sum_from` built from
the declarations the extractor finds in the file at `module['path']`. -/
def parse_imports (extractor : String → List RawImport) (st : PyState) (module : Entry) :
    Except String (List (String × SumEntry) × PyState) :=
  match lookupKey module "path" with
  | some (.str path) => parseImportsLoop module (extractor path) [] st
  | some _ => .error "TypeError: open"
  | none => .error "KeyError: path"

/-- Python `==` between a string and an arbitrary value: true exactly for an
equal string, false (without error) for any other type. -/
def pyEqVal (s : String) (v : PyVal) : Bool :=
  match v with
  | .str s2 => s = s2
  | _ => false

/-- One of the first two loops of `module_index`: scan with an explicit index
counter, comparing each `m['name']` with `==` (`KeyError` when the key is
missing). -/
def nameScanEq (target : String) : List Entry → Nat → Except String (Option Nat)
  | [], _ => .ok none
  | m :: rest, idx =>
    match lookupKey m "name" with
    | none => .error "KeyError: name"
    | some v => if pyEqVal target v then .ok (some idx) else nameScanEq target rest (idx + 1)

/-- The third loop of `module_index`: `module.startswith(m['name'] + '.')`,
which needs `m['name']` to be a string. -/
def nameScanPrefixOfTarget (target : String) : List Entry → Nat → Except String (Option Nat)
  | [], _ => .ok none
  | m :: rest, idx =>
    match lookupKey m "name" with
    | none => .error "KeyError: name"
    | some (.str s) =>
      if pyStartsWith target (s ++ ".") then .ok (some idx)
      else nameScanPrefixOfTarget target rest (idx + 1)
    | some _ => .error "TypeError: can only concatenate str"

/-- `DependencyMatrix.module_index`: three sequential scans over the module
list — exact name match, `<module>.__init__` match, then
`module.startswith(m['name'] + '.')` — each returning the first matching
index; `None` (here `none`) when all three miss. -/
def module_index (modules : List Entry) (module : String) : Except String (Option Nat) :=
  match nameScanEq module modules 0 with
  | .error e => .error e
  | .ok (some idx) => .ok (some idx)
  | .ok none =>
    match nameScanEq (module ++ ".__init__") modules 0 with
    | .error e => .error e
    | .ok (some idx) => .ok (some idx)
    | .ok none => nameScanPrefixOfTarget module modules 0

/-- The `for key in imports_dicts.keys()` loop of `build_imports`: each key is
resolved with `module_index`; a `None` result makes `self.modules[None]`
raise; otherwise the edge dict is built in the literal order of the source
(`source_name`, `source_index`, `target_index`, `target_name`, `imports`,
`cardinal`, the last being `len(imports_dicts[key]['import'])`). -/
def edgesFor (modulesAll : List Entry) (module : Entry) (source_index : Nat) :
    List (String × SumEntry) → Except String (List Entry)
  | [] => .ok []
  | (key, se) :: rest =>
    match lookupKey module "name" with
    | none => .error "KeyError: name"
    | some sname =>
      match module_index modulesAll key with
      | .error e => .error e
      | .ok none => .error "TypeError: list indices must be integers"
      | .ok (some ti) =>
        match pyListGet modulesAll (ti : Int) with
        | .error e => .error e
        | .ok tm =>
          match lookupKey tm "name" with
          | none => .error "KeyError: name"
          | some tname =>
            let edge : Entry :=
              [("source_name", sname),
               ("source_index", PyVal.int source_index),
               ("target_index", PyVal.int ti),
               ("target_name", tname),
               ("imports", PyVal.declList [se]),
               ("cardinal", PyVal.int se.symbolNames.length)]
            match edgesFor modulesAll module source_index rest with
            | .error e => .error e
            | .ok more => .ok (edge :: more)

/-- The `for module in self.modules` loop of `build_imports`, threading the
`source_index` counter, the growing `self.imports` list and the containment
cache. -/
def buildImportsLoop (extractor : String → List RawImport) (modulesAll : List Entry) :
    List Entry → Nat → List Entry → PyState → Except String (List Entry × PyState)
  | [], _, impAcc, st => .ok (impAcc, st)
  | module :: rest, si, impAcc, st =>
    match parse_imports extractor st module with
    | .error e => .error e
    | .ok (sumFrom, st2) =>
      match edgesFor modulesAll module si sumFrom with
      | .error e => .error e
      | .ok edges => buildImportsLoop extractor modulesAll rest (si + 1) (impAcc ++ edges) st2

/-- `DependencyMatrix.build_imports`: returns `self` unchanged unless modules
are built and imports are not; otherwise builds the edge list. -/
def build_imports (extractor : String → List RawImport) (st : PyState) : Except String PyState :=
  if !st.modules_built || st.imports_built then .ok st else
  match buildImportsLoop extractor st.modules st.modules 0 [] st with
  | .error e => .error e
  | .ok (newImports, st2) =>
    .ok { st2 with imports := st2.imports ++ newImports, imports_built := true }

/-- `DependencyMatrix._build_up_matrix`.  Its modules loop computes
`up_module = m['name'].split('.')[:down_level]`, a Python `list`, and
immediately evaluates `seen_module.get(up_module, None)`; `dict.get` hashes
its key and a list is unhashable, so the first iteration raises `TypeError`.
When the down matrix has no module the loop body never runs,
`modules_indexes` stays empty and any edge makes
`modules_indexes[i['source_index']]` raise `KeyError`. -/
def build_up_matrix (matrices : List (Option PyMatrix)) (down_level : Int) :
    Except String PyMatrix :=
  match pyListGet matrices down_level with
  | .error e => .error e
  | .ok none => .error "TypeError: NoneType object is not subscriptable"
  | .ok (some mat) =>
    match mat.modules with
    | [] =>
      match mat.imports with
      | [] => .ok ⟨[], []⟩
      | i :: _ =>
        match lookupKey i "source_index" with
        | none => .error "KeyError: source_index"
        | some _ => .error "KeyError"
    | m :: _ =>
      match lookupKey m "name" with
      | none => .error "KeyError: name"
      | some (.str _) => .error "TypeError: unhashable type: list"
      | some _ => .error "AttributeError: split"

/-- The `while md > 0` loop of `build_matrices`: at counter value `md` it
stores `self._build_up_matrix(md)` into `self.matrices[md - 1]`, then
decrements. -/
def buildMatricesLoop : Nat → List (Option PyMatrix) → Except String (List (Option PyMatrix))
  | 0, mats => .ok mats
  | n + 1, mats =>
    match build_up_matrix mats ((n : Int) + 1) with
    | .error e => .error e
    | .ok m =>
      match pyListSet mats (n : Int) (some m) with
      | .error e => .error e
      | .ok mats2 => buildMatricesLoop n mats2

/-- `DependencyMatrix.build_matrices`: returns `self` unchanged unless imports
are built and matrices are not; otherwise seeds `self.matrices` with `None`
placeholders, stores the raw module/import lists at index `max_depth - 1`,
and folds upwards with `_build_up_matrix`. -/
def build_matrices (st : PyState) : Except String PyState :=
  if !st.imports_built || st.matrices_built then .ok st else
  let md := st.max_depth
  let mats0 : List (Option PyMatrix) := List.replicate md.toNat none
  match pyListSet mats0 (md - 1) (some ⟨st.modules, st.imports⟩) with
  | .error e => .error e
  | .ok mats1 =>
    match buildMatricesLoop (md - 1).toNat mats1 with
    | .error e => .error e
    | .ok mats2 => .ok { st with matrices := mats2, matrices_built := true }

/-- The index cast of `get_matrix`: `0` or anything above `max_depth` selects
`max_depth - 1`, a negative request selects `0`, otherwise `matrix - 1`. -/
def castIndex (max_depth : Int) (matrix : Int) : Int :=
  if matrix = 0 ∨ matrix > max_depth then max_depth - 1
  else if matrix < 0 then 0
  else matrix - 1

/-- `DependencyMatrix.get_matrix`: `dict(self.matrices[m])` — the outer dict
is copied (value-identical here), the entry lists and entry dicts are shared
with the stored slot; a `None` slot would make `dict(None)` raise. -/
def get_matrix (st : PyState) (matrix : Int) : Except String PyMatrix :=
  match pyListGet st.matrices (castIndex st.max_depth matrix) with
  | .error e => .error e
  | .ok none => .error "TypeError: dict() argument is not iterable"
  | .ok (some mat) => .ok mat

/-- One `for item in ...: del item[k]` loop of `_option_filter`: raises
`KeyError` at the first entry missing the key. -/
def deleteAll (l : List Entry) (k : String) : Except String (List Entry) :=
  match l with
  | [] => .ok []
  | e :: rest =>
    match pyDelete e k with
    | .error er => .error er
    | .ok e2 =>
      match deleteAll rest k with
      | .error er => .error er
      | .ok r => .ok (e2 :: r)

/-- `DependencyMatrix._option_filter`, with the eight option checks in source
order.  In Python the deletions happen in place on the entry dicts of the
argument; the returned value is the matrix after those deletions. -/
def option_filter (matrix : PyMatrix) (options : PyOptions) : Except String PyMatrix := do
  let mods := matrix.modules
  let mods ← if options.group_name then pure mods else deleteAll mods "group_name"
  let mods ← if options.group_index then pure mods else deleteAll mods "group_index"
  let imps := matrix.imports
  let imps ← if options.source_name then pure imps else deleteAll imps "source_name"
  let imps ← if options.source_index then pure imps else deleteAll imps "source_index"
  let imps ← if options.target_name then pure imps else deleteAll imps "target_name"
  let imps ← if options.target_index then pure imps else deleteAll imps "target_index"
  let imps ← if options.imports then pure imps else deleteAll imps "imports"
  let imps ← if options.cardinal then pure imps else deleteAll imps "cardinal"
  pure (PyMatrix.mk mods imps)

/-- `DependencyMatrix.matrix_to_json`: serializes
`_option_filter(self.get_matrix(matrix), options)` (the `json.dumps` step is
out of scope, the filtered matrix stands for the document).  Because
`get_matrix` copies only the outer dict, `_option_filter` deletes keys on the
entry dicts shared with the stored slot, so the call also leaves the stored
slot holding the filtered entries; the returned state records that effect. -/
def matrix_to_json (st : PyState) (matrix : Int) (options : PyOptions) :
    Except String (PyMatrix × PyState) :=
  match get_matrix st matrix with
  | .error e => .error e
  | .ok mat =>
    match option_filter mat options with
    | .error e => .error e
    | .ok filtered =>
      match pyListSet st.matrices (castIndex st.max_depth matrix) (some filtered) with
      | .error e => .error e
      | .ok mats2 => .ok (filtered, { st with matrices := mats2 })

/-- The `name` values of a module list, when every entry has a string name
(the shape every module entry built by `_walk` has). -/
def entryNames : List Entry → Option (List String)
  | [] => some []
  | e :: rest =>
    match lookupKey e "name" with
    | some (.str s) =>
      match entryNames rest with
      | some ns => some (s :: ns)
      | none => none
    | _ => none

/-- First index satisfying a predicate, counting from `idx`. -/
def findIdxFrom (q : String → Bool) : List String → Nat → Option Nat
  | [], _ => none
  | s :: rest, idx => if q s then some idx else findIdxFrom q rest (idx + 1)

/-- The three-tier lookup `module_index` actually performs, on the name list:
(1) exact name match; (2) match against `<target>.__init__`; (3) some module
name extended by a dot is a prefix of the target.  First tier that matches
wins, first match in inventory order within a tier. -/
def tierLookup (names : List String) (target : String) : Option Nat :=
  match findIdxFrom (fun n => target = n) names 0 with
  | some i => some i
  | none =>
    match findIdxFrom (fun n => target ++ ".__init__" = n) names 0 with
    | some i => some i
    | none => findIdxFrom (fun n => pyStartsWith target (n ++ ".")) names 0

/-- Modelled from the spec: the three-tier lookup exactly as the claim words
it, whose third tier instead takes the *target* to be a dotted prefix of some
module name.  Used to compare the claimed behaviour with `module_index`. -/
def specTierLookup (names : List String) (target : String) : Option Nat :=
  match findIdxFrom (fun n => target = n) names 0 with
  | some i => some i
  | none =>
    match findIdxFrom (fun n => target ++ ".__init__" = n) names 0 with
    | some i => some i
    | none => findIdxFrom (fun n => pyStartsWith n (target ++ ".")) names 0

/-- Well-formed dotted-name segments: nonempty, with no dot and no slash. -/
def goodSegs (segs : List String) : Prop :=
  ∀ s ∈ segs, s.data ≠ [] ∧ ∀ c ∈ s.data, c ≠ '.' ∧ c ≠ '/'

instance : DecidablePred goodSegs := fun segs => by
  unfold goodSegs; infer_instance

/-- The end-to-end scenario of spec section 8: modules `app`, `app.core`,
`app.util` at maximum depth 2. -/
def scnModules : List Entry :=
  [[("name", PyVal.str "app"), ("path", PyVal.str "app/__init__.py"),
    ("group_index", PyVal.int 0), ("group_name", PyVal.str "")],
   [("name", PyVal.str "app.core"), ("path", PyVal.str "app/core.py"),
    ("group_index", PyVal.int 0), ("group_name", PyVal.str "")],
   [("name", PyVal.str "app.util"), ("path", PyVal.str "app/util.py"),
    ("group_index", PyVal.int 0), ("group_name", PyVal.str "")]]

/-- The single edge of the scenario: `app.core` imports `helper` from
`app.util`, cardinal 1. -/
def scnEdge : Entry :=
  [("source_name", PyVal.str "app.core"), ("source_index", PyVal.int 1),
   ("target_index", PyVal.int 2), ("target_name", PyVal.str "app.util"),
   ("imports", PyVal.declList [⟨"app.core", "app.util", ["helper"]⟩]),
   ("cardinal", PyVal.int 1)]

/-- The scenario state right before `build_matrices`. -/
def scnState : PyState :=
  ⟨[["app"]], [""], scnModules, [scnEdge], 2, [], [("app.util", true)], true, true, false⟩

/-- The depth-2 matrix of the scenario, stored at index 1 of `self.matrices`
by the first statement of `build_matrices`. -/
def scnMatrices : List (Option PyMatrix) :=
  [none, some ⟨scnModules, [scnEdge]⟩]

/-- A built single-depth analysis: one module, one edge, `max_depth` 1. -/
def oneMatrix : PyMatrix := ⟨[scnModules.headI], [scnEdge]⟩

/-- The corresponding state after `build_matrices`. -/
def oneBuilt : PyState :=
  ⟨[["app"]], [""], [scnModules.headI], [scnEdge], 1, [some oneMatrix], [], true, true, true⟩

/-- Options with only `cardinal` disabled. -/
def noCardinalOptions : PyOptions := ⟨true, true, true, true, true, true, true, false⟩

/-- A two-depth built state used to exercise the `get_matrix` cast rule. -/
def twoMatrixA : PyMatrix := ⟨[[("name", PyVal.strList ["app"])]], [scnEdge]⟩

/-- Second stored matrix of the two-depth state. -/
def twoBuilt : PyState :=
  ⟨[["app"]], [""], scnModules, [scnEdge], 2, [some twoMatrixA, some ⟨scnModules, [scnEdge]⟩],
   [], true, true, true⟩

/-- Inventory with the single module `a.b`, package `a` configured. -/
def abModules : List Entry := [[("name", PyVal.str "a.b")]]

/-- A fresh, never-built state over one configured package. -/
def freshState : PyState :=
  ⟨[["mypkg"]], [""], [], [], 0, [], [], false, false, false⟩

/-- A path resolver that resolves only the package `app`. -/
def appResolver : String → Option String :=
  fun p => if p = "app" then some "site/app/__init__.py" else none

/-- A file system with a single file `site/app/__init__.py`. -/
def appFS : String → List FSTree :=
  fun p => if p = "site/app" then [FSTree.file "__init__.py"] else []

/-- A fresh state configured with the package `app`. -/
def appFresh : PyState :=
  ⟨[["app"]], [""], [], [], 0, [], [], false, false, false⟩

/-- The one module entry `appResolver`/`appFS` discover. -/
def appMods : List Entry :=
  [[("name", PyVal.str "app.__init__"), ("path", PyVal.str "site/app/__init__.py"),
    ("group_index", PyVal.int 0), ("group_name", PyVal.str "")]]

lemma pyListGet_nil {α : Type} (i : Int) :
    pyListGet ([] : List α) i = .error "IndexError: list index out of range" := by
  unfold pyListGet
  rw [dif_neg]
  simp only [List.length_nil]
  omega

lemma pyListGet_pos {α : Type} (l : List α) (i : Int) (h : 0 ≤ i) (h2 : i.toNat < l.length) :
    pyListGet l i = .ok (l.get ⟨i.toNat, h2⟩) := by
  unfold pyListGet
  have hni : ¬ i < 0 := by omega
  simp only [hni, if_false]
  rw [dif_pos ⟨h, by omega⟩]

/-- Claim C10: with `build_matrices` never run (`matrices` empty, `max_depth`
zero), `get_matrix` raises `IndexError` for every integer depth request; the
cast rule does not make it total out of pipeline order. -/
theorem c10_get_matrix_unbuilt_raises (st : PyState) (h1 : st.matrices = [])
    (h2 : st.max_depth = 0) (d : Int) :
    get_matrix st d = .error "IndexError: list index out of range" := by
  unfold get_matrix
  rw [h1, h2, pyListGet_nil]

/-- Witness for C10 at a concrete fresh state and depth. -/
theorem c10_get_matrix_unbuilt_raises_witness :
    get_matrix freshState 5 = .error "IndexError: list index out of range" :=
  c10_get_matrix_unbuilt_raises freshState rfl rfl 5

/-- Claim C9: `build_imports` before `build_modules` has completed, and
`build_matrices` before `build_imports` has completed, return `self` with
every instance attribute unchanged. -/
theorem c9_out_of_order_noop :
    (∀ (extractor : String → List RawImport) (st : PyState), st.modules_built = false →
      build_imports extractor st = .ok st) ∧
    (∀ st : PyState, st.imports_built = false → build_matrices st = .ok st) := by
  constructor
  · intro extractor st h
    unfold build_imports
    rw [h]
    rfl
  · intro st h
    unfold build_matrices
    rw [h]
    rfl

/-- Witness for C9 at a concrete fresh state. -/
theorem c9_out_of_order_noop_witness :
    build_imports (fun _ => []) freshState = .ok freshState ∧
    build_matrices freshState = .ok freshState :=
  ⟨c9_out_of_order_noop.1 (fun _ => []) freshState rfl,
   c9_out_of_order_noop.2 freshState rfl⟩

/-- Claim C1 (code bug): on the spec scenario (`app`, `app.core`, `app.util`,
one edge of cardinal 1, `max_depth` 2) `build_matrices` does not produce the
matrices the conservation claim quantifies over: its first fold computes
`up_module = m['name'].split('.')[:down_level]`, a Python list, and
`seen_module.get(up_module, None)` raises `TypeError` because a list is
unhashable. -/
theorem c1_build_matrices_fold_raises :
    build_matrices scnState = .error "TypeError: unhashable type: list" := rfl

/-- Claim C2 (code bug): the folding step from depth 2 to depth 1 on the
scenario matrix (where the only edge would become a self-loop on the
collapsed module `app`) raises `TypeError` on its first module instead of
producing a depth-1 matrix. -/
theorem c2_fold_step_raises :
    build_up_matrix scnMatrices 1 = .error "TypeError: unhashable type: list" := rfl

/-- Claim C3 (code bug): before projection, every stored edge of the built
state has its `cardinal` attribute; after one `matrix_to_json` call with
`cardinal` disabled, a later `get_matrix` at the same depth returns edge
entries with `cardinal` missing — `_option_filter` deleted the key on the
entry dicts shared with the stored matrix. -/
theorem c3_projection_corrupts_store :
    (get_matrix oneBuilt 1).map
      (fun m0 => m0.imports.all (fun e => e.any (fun kv => kv.1 == "cardinal"))) = .ok true ∧
    (matrix_to_json oneBuilt 1 noCardinalOptions).map
      (fun p => (get_matrix p.2 1).map
        (fun m2 => m2.imports.all (fun e => e.any (fun kv => kv.1 == "cardinal")))) =
      .ok (.ok false) :=
  ⟨rfl, rfl⟩

/-- Counterexample for C5: with every option disabled, the projected module
entries are not empty mappings (the unrecognized `name` and `path` keys
survive). -/
theorem c5_counterexample_modules_not_empty :
    (option_filter ⟨scnModules, [scnEdge]⟩ allFalseOptions).map
      (fun r => r.modules.all (fun e => e.isEmpty)) = .ok false := rfl

/-- Counterexample for C8: when every configured package is unresolvable the
walk discovers no module and `max([...])` raises `ValueError`, so
`build_modules` does not complete. -/
theorem c8_counterexample_all_unresolved_raises :
    build_modules (fun _ => none) (fun _ => []) freshState =
      .error "ValueError: max() arg is an empty sequence" := rfl

/-- Counterexample for C4: target `a` is contained (it equals the configured
package `a`), the claimed three-tier procedure resolves it to index 0 via its
tier 3 (`a` is a dotted prefix of the module name `a.b`), but `module_index`
returns `None`: the third loop of the code tests the opposite direction,
`module.startswith(m['name'] + '.')`. -/
theorem c4_counterexample_tier3_direction :
    containsPure [["a"]] "a" = true ∧
    specTierLookup ["a.b"] "a" = some 0 ∧
    module_index abModules "a" = .ok none :=
  ⟨rfl, rfl, rfl⟩

lemma get_matrix_map_some (st : PyState) (mats : List PyMatrix) (hm : st.matrices = mats.map some)
    (k : Int) (h0 : 0 ≤ castIndex st.max_depth k)
    (h1 : (castIndex st.max_depth k).toNat < mats.length) :
    get_matrix st k = .ok (mats.get ⟨(castIndex st.max_depth k).toNat, h1⟩) := by
  unfold get_matrix
  rw [hm, pyListGet_pos (mats.map some) _ h0 (by simpa using h1)]
  simp [List.get_eq_getElem, List.getElem_map]

lemma get_matrix_congr_idx (st : PyState) (k1 k2 : Int)
    (h : castIndex st.max_depth k1 = castIndex st.max_depth k2) :
    get_matrix st k1 = get_matrix st k2 := by
  unfold get_matrix
  rw [h]

/-- Claim C6: with matrices built (`max_depth ≥ 1`, one stored matrix per
depth), a request of `0` or anything above `max_depth` returns the
`max_depth` matrix, a negative request returns the depth-1 matrix, a request
`k` with `1 ≤ k ≤ max_depth` returns the matrix stored for depth `k`, and no
integer request raises. -/
theorem c6_get_matrix_cast (st : PyState) (mats : List PyMatrix) (md : Int)
    (hmd : st.max_depth = md) (hpos : 1 ≤ md) (hm : st.matrices = mats.map some)
    (hlen : (mats.length : Int) = md) :
    (∀ k : Int, (k = 0 ∨ k > md) → get_matrix st k = get_matrix st md) ∧
    (∀ k : Int, k < 0 → get_matrix st k = get_matrix st 1) ∧
    (∀ (k : Int) (_ : 1 ≤ k) (_ : k ≤ md) (h2 : (k - 1).toNat < mats.length),
        get_matrix st k = .ok (mats.get ⟨(k - 1).toNat, h2⟩)) ∧
    (∀ k : Int, ∃ m, get_matrix st k = .ok m) := by
  subst hmd
  have hc1 : ∀ k : Int, (k = 0 ∨ k > st.max_depth) →
      castIndex st.max_depth k = st.max_depth - 1 := by
    intro k hk
    unfold castIndex
    rw [if_pos hk]
  have hcmd : castIndex st.max_depth st.max_depth = st.max_depth - 1 := by
    unfold castIndex
    rw [if_neg (by omega), if_neg (by omega)]
  have hc2 : ∀ k : Int, k < 0 → castIndex st.max_depth k = 0 := by
    intro k hk
    unfold castIndex
    rw [if_neg (by omega), if_pos hk]
  have hcone : castIndex st.max_depth 1 = 0 := by
    unfold castIndex
    rw [if_neg (by omega), if_neg (by omega)]
    norm_num
  have hc3 : ∀ k : Int, 1 ≤ k → k ≤ st.max_depth → castIndex st.max_depth k = k - 1 := by
    intro k hk1 hk2
    unfold castIndex
    rw [if_neg (by omega), if_neg (by omega)]
  refine ⟨?_, ?_, ?_, ?_⟩
  · intro k hk
    exact get_matrix_congr_idx st k st.max_depth (by rw [hc1 k hk, hcmd])
  · intro k hk
    exact get_matrix_congr_idx st k 1 (by rw [hc2 k hk, hcone])
  · intro k hk1 hk2 h2
    rw [get_matrix_map_some st mats hm k (by have := hc3 k hk1 hk2; omega)
      (by have := hc3 k hk1 hk2; omega)]
    refine congrArg Except.ok (congrArg mats.get ?_)
    apply Fin.ext
    show (castIndex st.max_depth k).toNat = (k - 1).toNat
    rw [hc3 k hk1 hk2]
  · intro k
    by_cases hk : k = 0 ∨ k > st.max_depth
    · exact ⟨_, get_matrix_map_some st mats hm k (by have := hc1 k hk; omega)
        (by have := hc1 k hk; omega)⟩
    · by_cases hneg : k < 0
      · exact ⟨_, get_matrix_map_some st mats hm k (by have := hc2 k hneg; omega)
          (by have := hc2 k hneg; omega)⟩
      · have h1 : 1 ≤ k := by omega
        have h2 : k ≤ st.max_depth := by omega
        exact ⟨_, get_matrix_map_some st mats hm k (by have := hc3 k h1 h2; omega)
          (by have := hc3 k h1 h2; omega)⟩

/-- Witness for C6 at a concrete two-depth built state. -/
theorem c6_get_matrix_cast_witness :
    get_matrix twoBuilt 0 = get_matrix twoBuilt 2 ∧
    get_matrix twoBuilt 7 = get_matrix twoBuilt 2 ∧
    get_matrix twoBuilt (-3) = get_matrix twoBuilt 1 :=
  have h := c6_get_matrix_cast twoBuilt [twoMatrixA, ⟨scnModules, [scnEdge]⟩] 2
    rfl (by norm_num) rfl rfl
  ⟨h.1 0 (Or.inl rfl), h.1 7 (Or.inr (by norm_num)), h.2.1 (-3) (by norm_num)⟩

lemma nameScanEq_bridge (target : String) :
    ∀ (mods : List Entry) (names : List String) (idx : Nat),
      entryNames mods = some names →
      nameScanEq target mods idx = .ok (findIdxFrom (fun n => target = n) names idx) := by
  intro mods
  induction mods with
  | nil =>
    intro names idx h
    unfold entryNames at h
    injection h with h2
    subst h2
    rfl
  | cons e rest ih =>
    intro names idx h
    unfold entryNames at h
    cases hk : lookupKey e "name" with
    | none => rw [hk] at h; exact absurd h (by simp)
    | some v =>
      rw [hk] at h
      cases v with
      | str s =>
        cases hr : entryNames rest with
        | none => rw [hr] at h; exact absurd h (by simp)
        | some ns =>
          rw [hr] at h
          injection h with h2
          subst h2
          unfold nameScanEq findIdxFrom
          rw [hk]
          by_cases hc : target = s
          · simp [pyEqVal, hc]
          · simp only [pyEqVal, hc, decide_False, Bool.false_eq_true, if_false]
            exact ih ns (idx + 1) hr
      | int n => exact absurd h (by simp)
      | strList l => exact absurd h (by simp)
      | declList l => exact absurd h (by simp)

lemma nameScanPrefix_bridge (target : String) :
    ∀ (mods : List Entry) (names : List String) (idx : Nat),
      entryNames mods = some names →
      nameScanPrefixOfTarget target mods idx =
        .ok (findIdxFrom (fun n => pyStartsWith target (n ++ ".")) names idx) := by
  intro mods
  induction mods with
  | nil =>
    intro names idx h
    unfold entryNames at h
    injection h with h2
    subst h2
    rfl
  | cons e rest ih =>
    intro names idx h
    unfold entryNames at h
    cases hk : lookupKey e "name" with
    | none => rw [hk] at h; exact absurd h (by simp)
    | some v =>
      rw [hk] at h
      cases v with
      | str s =>
        cases hr : entryNames rest with
        | none => rw [hr] at h; exact absurd h (by simp)
        | some ns =>
          rw [hr] at h
          injection h with h2
          subst h2
          unfold nameScanPrefixOfTarget findIdxFrom
          rw [hk]
          by_cases hc : pyStartsWith target (s ++ ".") = true
          · simp [hc]
          · simp only [Bool.not_eq_true] at hc
            simp only [hc, if_false, Bool.false_eq_true]
            exact ih ns (idx + 1) hr
      | int n => exact absurd h (by simp)
      | strList l => exact absurd h (by simp)
      | declList l => exact absurd h (by simp)

/-- Claim C4 as amended: for an inventory whose entries all carry string
names, `module_index` is the three-tier lookup over those names — exact
match, then `<target>.__init__` match, then *the module name extended by a
dot being a prefix of the target* (not the other way around) — first tier
that matches wins, first inventory match within a tier. -/
theorem c4_module_index_three_tiers (mods : List Entry) (names : List String) (target : String)
    (h : entryNames mods = some names) :
    module_index mods target = .ok (tierLookup names target) := by
  unfold module_index tierLookup
  rw [nameScanEq_bridge target mods names 0 h,
      nameScanEq_bridge (target ++ ".__init__") mods names 0 h,
      nameScanPrefix_bridge target mods names 0 h]
  cases findIdxFrom (fun n => target = n) names 0 with
  | none =>
    cases findIdxFrom (fun n => target ++ ".__init__" = n) names 0 with
    | none => rfl
    | some i => rfl
  | some i => rfl

/-- Witness for C4 at the scenario inventory. -/
theorem c4_module_index_three_tiers_witness :
    module_index scnModules "app.core" =
      .ok (tierLookup ["app", "app.core", "app.util"] "app.core") ∧
    tierLookup ["app", "app.core", "app.util"] "app.core" = some 1 :=
  ⟨c4_module_index_three_tiers scnModules ["app", "app.core", "app.util"] "app.core" rfl, rfl⟩

lemma mem_delKey {e : Entry} {k : String} {p : String × PyVal} :
    p ∈ delKey e k ↔ p ∈ e ∧ p.1 ≠ k := by
  simp [delKey, List.mem_filter]

lemma mem_keysOf_delKey {e : Entry} {k1 k2 : String} :
    k2 ∈ keysOf (delKey e k1) ↔ k2 ∈ keysOf e ∧ k2 ≠ k1 := by
  simp only [keysOf, List.mem_map]
  constructor
  · rintro ⟨p, hp, rfl⟩
    rw [mem_delKey] at hp
    exact ⟨⟨p, hp.1, rfl⟩, hp.2⟩
  · rintro ⟨⟨p, hp, rfl⟩, hne⟩
    exact ⟨p, mem_delKey.mpr ⟨hp, hne⟩, rfl⟩

lemma keysOf_mem_of_mem {e : Entry} {p : String × PyVal} (hp : p ∈ e) : p.1 ∈ keysOf e :=
  List.mem_map.mpr ⟨p, hp, rfl⟩

lemma deleteAll_ok : ∀ (l : List Entry) (k : String), (∀ e ∈ l, k ∈ keysOf e) →
    deleteAll l k = .ok (l.map (fun e => delKey e k)) := by
  intro l k
  induction l with
  | nil => intro _; rfl
  | cons e rest ih =>
    intro h
    unfold deleteAll pyDelete
    rw [if_pos (h e (by simp)), ih (fun x hx => h x (by simp [hx]))]
    rfl

lemma delSixKeys_eq_nil (e : Entry)
    (hsub : ∀ k ∈ keysOf e, k = "source_name" ∨ k = "source_index" ∨ k = "target_name" ∨
      k = "target_index" ∨ k = "imports" ∨ k = "cardinal") :
    delKey (delKey (delKey (delKey (delKey (delKey e "source_name") "source_index")
      "target_name") "target_index") "imports") "cardinal" = [] := by
  rw [List.eq_nil_iff_forall_not_mem]
  intro p hp
  simp only [mem_delKey] at hp
  obtain ⟨⟨⟨⟨⟨⟨hpe, h1⟩, h2⟩, h3⟩, h4⟩, h5⟩, h6⟩ := hp
  rcases hsub p.1 (keysOf_mem_of_mem hpe) with h | h | h | h | h | h <;> simp_all

/-- Claim C5 as amended: projecting a built matrix with every option disabled
leaves the module and edge list lengths unchanged, turns every edge entry
into an empty mapping, and strips the two recognized module attributes
(`group_name`, `group_index`) from every module entry — the unrecognized
`name` and `path` keys are what survive, so module entries are not empty. -/
theorem c5_all_options_disabled (mat : PyMatrix)
    (hm : ∀ e ∈ mat.modules, "group_name" ∈ keysOf e ∧ "group_index" ∈ keysOf e)
    (hi : ∀ e ∈ mat.imports,
      ("source_name" ∈ keysOf e ∧ "source_index" ∈ keysOf e ∧ "target_name" ∈ keysOf e ∧
       "target_index" ∈ keysOf e ∧ "imports" ∈ keysOf e ∧ "cardinal" ∈ keysOf e) ∧
      (∀ k ∈ keysOf e, k = "source_name" ∨ k = "source_index" ∨ k = "target_name" ∨
        k = "target_index" ∨ k = "imports" ∨ k = "cardinal")) :
    option_filter mat allFalseOptions =
      .ok ⟨mat.modules.map (fun e => delKey (delKey e "group_name") "group_index"),
           mat.imports.map (fun _ => ([] : Entry))⟩ ∧
    (∀ res, option_filter mat allFalseOptions = .ok res →
      res.modules.length = mat.modules.length ∧ res.imports.length = mat.imports.length ∧
      (∀ e ∈ res.imports, e = []) ∧
      (∀ e ∈ res.modules, "group_name" ∉ keysOf e ∧ "group_index" ∉ keysOf e)) := by
  have hm1 : deleteAll mat.modules "group_name" =
      .ok (mat.modules.map (fun e => delKey e "group_name")) :=
    deleteAll_ok _ _ (fun e he => (hm e he).1)
  have hm2 : deleteAll (mat.modules.map (fun e => delKey e "group_name")) "group_index" =
      .ok ((mat.modules.map (fun e => delKey e "group_name")).map
        (fun e => delKey e "group_index")) := by
    refine deleteAll_ok _ _ ?_
    intro e2 he2
    obtain ⟨e, he, rfl⟩ := List.mem_map.mp he2
    exact mem_keysOf_delKey.mpr ⟨(hm e he).2, by decide⟩
  have hi1 : deleteAll mat.imports "source_name" =
      .ok (mat.imports.map (fun e => delKey e "source_name")) :=
    deleteAll_ok _ _ (fun e he => (hi e he).1.1)
  have hi2 : deleteAll (mat.imports.map (fun e => delKey e "source_name")) "source_index" =
      .ok ((mat.imports.map (fun e => delKey e "source_name")).map
        (fun e => delKey e "source_index")) := by
    refine deleteAll_ok _ _ ?_
    intro e2 he2
    obtain ⟨e, he, rfl⟩ := List.mem_map.mp he2
    exact mem_keysOf_delKey.mpr ⟨(hi e he).1.2.1, by decide⟩
  have hi3 : deleteAll ((mat.imports.map (fun e => delKey e "source_name")).map
      (fun e => delKey e "source_index")) "target_name" =
      .ok (((mat.imports.map (fun e => delKey e "source_name")).map
        (fun e => delKey e "source_index")).map (fun e => delKey e "target_name")) := by
    refine deleteAll_ok _ _ ?_
    intro e2 he2
    obtain ⟨e1, he1, rfl⟩ := List.mem_map.mp he2
    obtain ⟨e, he, rfl⟩ := List.mem_map.mp he1
    exact mem_keysOf_delKey.mpr ⟨mem_keysOf_delKey.mpr ⟨(hi e he).1.2.2.1, by decide⟩, by decide⟩
  have hi4 : deleteAll (((mat.imports.map (fun e => delKey e "source_name")).map
      (fun e => delKey e "source_index")).map (fun e => delKey e "target_name")) "target_index" =
      .ok ((((mat.imports.map (fun e => delKey e "source_name")).map
        (fun e => delKey e "source_index")).map (fun e => delKey e "target_name")).map
          (fun e => delKey e "target_index")) := by
    refine deleteAll_ok _ _ ?_
    intro e2 he2
    obtain ⟨e1, he1, rfl⟩ := List.mem_map.mp he2
    obtain ⟨e0, he0, rfl⟩ := List.mem_map.mp he1
    obtain ⟨e, he, rfl⟩ := List.mem_map.mp he0
    exact mem_keysOf_delKey.mpr ⟨mem_keysOf_delKey.mpr ⟨mem_keysOf_delKey.mpr
      ⟨(hi e he).1.2.2.2.1, by decide⟩, by decide⟩, by decide⟩
  have hi5 : deleteAll ((((mat.imports.map (fun e => delKey e "source_name")).map
      (fun e => delKey e "source_index")).map (fun e => delKey e "target_name")).map
        (fun e => delKey e "target_index")) "imports" =
      .ok (((((mat.imports.map (fun e => delKey e "source_name")).map
        (fun e => delKey e "source_index")).map (fun e => delKey e "target_name")).map
          (fun e => delKey e "target_index")).map (fun e => delKey e "imports")) := by
    refine deleteAll_ok _ _ ?_
    intro e2 he2
    obtain ⟨e1, he1, rfl⟩ := List.mem_map.mp he2
    obtain ⟨e0, he0, rfl⟩ := List.mem_map.mp he1
    obtain ⟨ea, hea, rfl⟩ := List.mem_map.mp he0
    obtain ⟨e, he, rfl⟩ := List.mem_map.mp hea
    exact mem_keysOf_delKey.mpr ⟨mem_keysOf_delKey.mpr ⟨mem_keysOf_delKey.mpr
      ⟨mem_keysOf_delKey.mpr ⟨(hi e he).1.2.2.2.2.1, by decide⟩, by decide⟩, by decide⟩, by decide⟩
  have hi6 : deleteAll (((((mat.imports.map (fun e => delKey e "source_name")).map
      (fun e => delKey e "source_index")).map (fun e => delKey e "target_name")).map
        (fun e => delKey e "target_index")).map (fun e => delKey e "imports")) "cardinal" =
      .ok ((((((mat.imports.map (fun e => delKey e "source_name")).map
        (fun e => delKey e "source_index")).map (fun e => delKey e "target_name")).map
          (fun e => delKey e "target_index")).map (fun e => delKey e "imports")).map
            (fun e => delKey e "cardinal")) := by
    refine deleteAll_ok _ _ ?_
    intro e2 he2
    obtain ⟨e1, he1, rfl⟩ := List.mem_map.mp he2
    obtain ⟨e0, he0, rfl⟩ := List.mem_map.mp he1
    obtain ⟨ea, hea, rfl⟩ := List.mem_map.mp he0
    obtain ⟨eb, heb, rfl⟩ := List.mem_map.mp hea
    obtain ⟨e, he, rfl⟩ := List.mem_map.mp heb
    exact mem_keysOf_delKey.mpr ⟨mem_keysOf_delKey.mpr ⟨mem_keysOf_delKey.mpr
      ⟨mem_keysOf_delKey.mpr ⟨mem_keysOf_delKey.mpr ⟨(hi e he).1.2.2.2.2.2, by decide⟩,
        by decide⟩, by decide⟩, by decide⟩, by decide⟩
  have himps : (((((mat.imports.map (fun e => delKey e "source_name")).map
      (fun e => delKey e "source_index")).map (fun e => delKey e "target_name")).map
        (fun e => delKey e "target_index")).map (fun e => delKey e "imports")).map
          (fun e => delKey e "cardinal") = mat.imports.map (fun _ => ([] : Entry)) := by
    simp only [List.map_map]
    refine List.map_congr_left ?_
    intro e he
    simp only [Function.comp]
    exact delSixKeys_eq_nil e (hi e he).2
  have hmain : option_filter mat allFalseOptions =
      .ok ⟨mat.modules.map (fun e => delKey (delKey e "group_name") "group_index"),
           mat.imports.map (fun _ => ([] : Entry))⟩ := by
    unfold option_filter allFalseOptions
    simp only [Bool.false_eq_true, if_false, bind, Except.bind]
    simp only [hm1, hm2, hi1, hi2, hi3, hi4, hi5, hi6, himps]
    simp only [List.map_map]
    rfl
  refine ⟨hmain, ?_⟩
  intro res hres
  rw [hmain] at hres
  injection hres with hres
  subst hres
  refine ⟨by simp, by simp, ?_, ?_⟩
  · intro e he
    obtain ⟨_, _, rfl⟩ := List.mem_map.mp he
    rfl
  · intro e2 he2
    obtain ⟨e, he, rfl⟩ := List.mem_map.mp he2
    constructor
    · intro hmem
      rw [mem_keysOf_delKey, mem_keysOf_delKey] at hmem
      exact hmem.1.2 rfl
    · intro hmem
      rw [mem_keysOf_delKey] at hmem
      exact hmem.2 rfl

/-- Witness for C5 at the scenario matrix. -/
theorem c5_all_options_disabled_witness :
    option_filter ⟨scnModules, [scnEdge]⟩ allFalseOptions =
      .ok ⟨scnModules.map (fun e => delKey (delKey e "group_name") "group_index"),
           [scnEdge].map (fun _ => ([] : Entry))⟩ :=
  (c5_all_options_disabled ⟨scnModules, [scnEdge]⟩ (by decide) (by decide)).1

lemma collectGroup_skip_unresolved (resolver : String → Option String)
    (fs : String → List FSTree) (groups : List String) (group : Nat) :
    ∀ pg : List String,
      collectGroup resolver fs groups group pg =
        collectGroup resolver fs groups group (pg.filter (fun p => (resolver p).isSome)) := by
  intro pg
  induction pg with
  | nil => rfl
  | cons p rest ih =>
    cases hr : resolver p with
    | none =>
      have h2 : (p :: rest).filter (fun q => (resolver q).isSome) =
          rest.filter (fun q => (resolver q).isSome) := by
        simp [List.filter_cons, hr]
      rw [h2, ← ih]
      simp only [collectGroup, hr]
    | some mp =>
      have h2 : (p :: rest).filter (fun q => (resolver q).isSome) =
          p :: rest.filter (fun q => (resolver q).isSome) := by
        simp [List.filter_cons, hr]
      rw [h2]
      simp only [collectGroup, hr]
      rw [ih]

lemma collectModules_skip_unresolved (resolver : String → Option String)
    (fs : String → List FSTree) (groups : List String) :
    ∀ (pgs : List (List String)) (g : Nat),
      collectModules resolver fs groups pgs g =
        collectModules resolver fs groups
          (pgs.map (fun pg => pg.filter (fun p => (resolver p).isSome))) g := by
  intro pgs
  induction pgs with
  | nil => intro g; rfl
  | cons pg rest ih =>
    intro g
    simp only [List.map_cons, collectModules]
    rw [← collectGroup_skip_unresolved resolver fs groups g pg, ih (g + 1)]

lemma segCounts_ok (l : List Entry)
    (h : ∀ e ∈ l, ∃ s, lookupKey e "name" = some (PyVal.str s)) :
    ∃ lens, segCounts l = .ok lens ∧ lens.length = l.length := by
  induction l with
  | nil => exact ⟨[], rfl, rfl⟩
  | cons e rest ih =>
    obtain ⟨s, hs⟩ := h e (by simp)
    obtain ⟨lens, hl, hlen⟩ := ih (fun x hx => h x (by simp [hx]))
    refine ⟨((splitDot s.data).length : Int) :: lens, ?_, by simp [hlen]⟩
    unfold segCounts nameSegCount
    rw [hs, hl]

/-- Claim C8 as amended: an unresolvable package is skipped and contributes no
module (the collection only sees the resolvable packages of each group), and
`build_modules` completes whenever at least one module is discovered; when no
module is discovered at all — in particular when every package is
unresolvable — the `max` over an empty list raises `ValueError` instead. -/
theorem c8_unresolved_skipped (resolver : String → Option String) (fs : String → List FSTree) :
    (∀ (groups : List String) (pgs : List (List String)) (g : Nat),
      collectModules resolver fs groups pgs g =
        collectModules resolver fs groups
          (pgs.map (fun pg => pg.filter (fun p => (resolver p).isSome))) g) ∧
    (∀ (st : PyState) (mods : List Entry),
      st.modules_built = false → st.modules = [] →
      collectModules resolver fs st.groups st.packages 0 = .ok mods → mods ≠ [] →
      (∀ e ∈ mods, ∃ s, lookupKey e "name" = some (PyVal.str s)) →
      ∃ md, build_modules resolver fs st =
        .ok { st with modules := mods, max_depth := md, modules_built := true }) := by
  constructor
  · exact fun groups pgs g => collectModules_skip_unresolved resolver fs groups pgs g
  · intro st mods hb hm hc hne hwf
    obtain ⟨lens, hl, hlen⟩ := segCounts_ok mods hwf
    obtain ⟨x, xs, rfl⟩ : ∃ y ys, lens = y :: ys := by
      cases lens with
      | nil =>
        exfalso
        exact hne (List.length_eq_zero.mp hlen.symm)
      | cons y ys => exact ⟨y, ys, rfl⟩
    refine ⟨xs.foldl max x, ?_⟩
    unfold build_modules
    simp only [hb, Bool.false_eq_true, if_false]
    rw [hc]
    simp only [hm, List.nil_append]
    rw [hl]
    rfl

/-- Witness for C8: the resolvable package `app` is walked while every other
package name is unresolvable, and `build_modules` completes. -/
theorem c8_unresolved_skipped_witness :
    ∃ md, build_modules appResolver appFS appFresh =
      .ok { appFresh with modules := appMods, max_depth := md, modules_built := true } :=
  (c8_unresolved_skipped appResolver appFS).2 appFresh appMods rfl rfl rfl
    (by simp [appMods])
    (by
      intro e he
      simp only [appMods, List.mem_singleton] at he
      subst he
      exact ⟨"app.__init__", rfl⟩)

lemma rfind_none {c : Char} : ∀ {l : List Char}, c ∉ l → rfindIdxAux c l = none := by
  intro l
  induction l with
  | nil => intro _; rfl
  | cons x xs ih =>
    intro h
    unfold rfindIdxAux
    rw [ih (fun hx => h (by simp [hx]))]
    rw [if_neg (by rintro rfl; exact h (List.mem_cons_self _ _))]

lemma rfind_concat {c : Char} {B : List Char} (hB : c ∉ B) :
    ∀ A : List Char, rfindIdxAux c (A ++ c :: B) = some A.length := by
  intro A
  induction A with
  | nil =>
    show rfindIdxAux c (c :: B) = some 0
    unfold rfindIdxAux
    rw [rfind_none hB]
    simp
  | cons a A ih =>
    show rfindIdxAux c (a :: (A ++ c :: B)) = some (A.length + 1)
    unfold rfindIdxAux
    rw [ih]

lemma splitextRoot_concat (A B : List Char) (hB : '.' ∉ B)
    (hs : '/' ∉ A ++ '.' :: B) (hA : ∃ x ∈ A, x ≠ '.') :
    splitextRoot (A ++ '.' :: B) = A := by
  unfold splitextRoot
  rw [rfind_concat hB A, rfind_none hs]
  simp only [Int.toNat_natCast]
  rw [if_pos (by omega : (-1 : Int) < (A.length : Int))]
  have hdrop : ((-1 : Int) + 1).toNat = 0 := rfl
  rw [hdrop, List.drop_zero, List.take_left]
  obtain ⟨x, hx, hxne⟩ := hA
  rw [if_neg]
  intro hall
  rw [List.all_eq_true] at hall
  exact hxne (by simpa using hall x hx)

lemma joinDotL_concat (b : List Char) : ∀ init : List (List Char), init ≠ [] →
    joinDotL (init ++ [b]) = joinDotL init ++ '.' :: b := by
  intro init
  induction init with
  | nil => intro h; exact absurd rfl h
  | cons d rest ih =>
    intro _
    cases rest with
    | nil => rfl
    | cons e rest2 =>
      have h1 : joinDotL ((d :: e :: rest2) ++ [b]) = d ++ '.' :: joinDotL ((e :: rest2) ++ [b]) := rfl
      show joinDotL ((d :: e :: rest2) ++ [b]) = (d ++ '.' :: joinDotL (e :: rest2)) ++ '.' :: b
      rw [h1, ih (by simp)]
      simp [List.append_assoc]

lemma mem_joinDotL {c : Char} : ∀ {ls : List (List Char)}, c ∈ joinDotL ls →
    c = '.' ∨ ∃ l ∈ ls, c ∈ l := by
  intro ls
  induction ls with
  | nil => intro h; simp [joinDotL] at h
  | cons d rest ih =>
    intro h
    cases rest with
    | nil =>
      right
      exact ⟨d, by simp, by simpa [joinDotL] using h⟩
    | cons e t =>
      simp only [joinDotL, List.mem_append, List.mem_cons] at h
      rcases h with h | h | h
      · right; exact ⟨d, by simp, h⟩
      · left; exact h
      · rcases ih h with h2 | ⟨l, hl, hcl⟩
        · left; exact h2
        · right; exact ⟨l, by simp [hl], hcl⟩

lemma mem_joinDotL_first {x : Char} {d : List Char} (hx : x ∈ d) :
    ∀ rest : List (List Char), x ∈ joinDotL (d :: rest) := by
  intro rest
  cases rest with
  | nil => simpa [joinDotL] using hx
  | cons e t => simp [joinDotL, hx]

lemma joinDot_data : ∀ segs : List String, (joinDot segs).data = joinDotL (segs.map String.data) := by
  intro segs
  induction segs with
  | nil => rfl
  | cons s rest ih =>
    cases rest with
    | nil => rfl
    | cons t rest2 =>
      show (s ++ "." ++ joinDot (t :: rest2)).data =
        joinDotL (s.data :: (t :: rest2).map String.data)
      rw [String.data_append, String.data_append, ih]
      have hdot : (".").data = ['.'] := rfl
      rw [hdot]
      show s.data ++ ['.'] ++ joinDotL ((t :: rest2).map String.data) =
        s.data ++ '.' :: joinDotL ((t :: rest2).map String.data)
      simp [List.append_assoc]

lemma stripExt_joinDot (segs : List String) (hw : goodSegs segs) (h2 : 2 ≤ segs.length) :
    stripExt (joinDot segs) = joinDot segs.dropLast := by
  have hlsne : segs.map String.data ≠ [] := by
    intro h
    rw [List.map_eq_nil_iff] at h
    subst h
    simp at h2
  have hdne : (segs.map String.data).dropLast ≠ [] := by
    intro h
    have hlen := List.length_dropLast (segs.map String.data)
    rw [h] at hlen
    simp at hlen
    omega
  have hjoin : joinDotL (segs.map String.data) =
      joinDotL (segs.map String.data).dropLast ++ '.' :: (segs.map String.data).getLast hlsne := by
    conv_lhs => rw [← List.dropLast_append_getLast hlsne]
    exact joinDotL_concat _ _ hdne
  obtain ⟨sB, hsB, hsBeq⟩ := List.mem_map.mp (List.getLast_mem hlsne)
  have hB : '.' ∉ (segs.map String.data).getLast hlsne := by
    rw [← hsBeq]
    intro hc
    exact ((hw sB hsB).2 '.' hc).1 rfl
  have hsl : '/' ∉ joinDotL (segs.map String.data) := by
    intro hc
    rcases mem_joinDotL hc with h | ⟨l, hl, hcl⟩
    · exact absurd h (by decide)
    · obtain ⟨sl, hsl2, rfl⟩ := List.mem_map.mp hl
      exact ((hw sl hsl2).2 '/' hcl).2 rfl
  have hA : ∃ x ∈ joinDotL (segs.map String.data).dropLast, x ≠ '.' := by
    obtain ⟨d, rest2, hdr⟩ : ∃ d rest2, (segs.map String.data).dropLast = d :: rest2 := by
      cases hld : (segs.map String.data).dropLast with
      | nil => exact absurd hld hdne
      | cons d r => exact ⟨d, r, rfl⟩
    have hdmem : d ∈ segs.map String.data := by
      have hmem : d ∈ (segs.map String.data).dropLast := by rw [hdr]; simp
      exact (List.dropLast_sublist (segs.map String.data)).subset hmem
    obtain ⟨sd, hsd, rfl⟩ := List.mem_map.mp hdmem
    obtain ⟨x, xs, hx⟩ : ∃ x xs, sd.data = x :: xs := by
      cases hsdd : sd.data with
      | nil => exact absurd hsdd ((hw sd hsd).1)
      | cons x xs => exact ⟨x, xs, rfl⟩
    refine ⟨x, ?_, ((hw sd hsd).2 x (by rw [hx]; simp)).1⟩
    rw [hdr]
    exact mem_joinDotL_first (by rw [hx]; simp) rest2
  have hroot : splitextRoot (joinDotL (segs.map String.data)) =
      joinDotL (segs.map String.data).dropLast := by
    rw [hjoin]
    exact splitextRoot_concat _ _ hB (by rw [← hjoin]; exact hsl) hA
  apply String.ext
  show splitextRoot (joinDot segs).data = (joinDot segs.dropLast).data
  rw [joinDot_data segs, hroot, joinDot_data segs.dropLast, List.map_dropLast]

lemma stripIter_joinDot : ∀ (L : Nat) (segs : List String), goodSegs segs → L < segs.length →
    stripIter L (joinDot segs) = joinDot (segs.take (segs.length - L)) := by
  intro L
  induction L with
  | zero =>
    intro segs _ _
    rw [Nat.sub_zero, List.take_length]
    rfl
  | succ L ih =>
    intro segs hw hL
    show stripIter L (stripExt (joinDot segs)) = _
    rw [stripExt_joinDot segs hw (by omega)]
    rw [ih segs.dropLast (fun s hs => hw s ((List.dropLast_sublist segs).subset hs))
      (by rw [List.length_dropLast]; omega)]
    rw [List.length_dropLast, List.dropLast_eq_take, List.take_take]
    congr 2
    omega

/-- Claim C7: inside a module whose dotted name has well-formed segments, a
`from`-import declaration with relative level `L` (one dot-segment stripped
per level, while segments remain) and declared suffix resolves to the name
joined from the first `length - L` segments followed by the suffix; for a
three-segment name `a.b.c`, level 1 gives `a.b.<s>` and level 2 gives
`a.<s>`. -/
theorem c7_relative_rewrite (segs : List String) (sfx : String) (L : Nat)
    (hw : goodSegs segs) (h1 : 1 ≤ L) (h2 : L < segs.length) :
    rewriteRelative (joinDot segs) L sfx =
      joinDot (segs.take (segs.length - L)) ++ "." ++ sfx := by
  unfold rewriteRelative
  rw [if_pos (by omega : L > 0), stripIter_joinDot L segs hw h2]

/-- Witness for C7 on the concrete name `a.b.c` with levels 1 and 2. -/
theorem c7_relative_rewrite_witness :
    rewriteRelative (joinDot ["a", "b", "c"]) 1 "d" =
      joinDot (["a", "b", "c"].take 2) ++ "." ++ "d" ∧
    rewriteRelative (joinDot ["a", "b", "c"]) 2 "d" =
      joinDot (["a", "b", "c"].take 1) ++ "." ++ "d" ∧
    rewriteRelative "a.b.c" 1 "d" = "a.b.d" ∧
    rewriteRelative "a.b.c" 2 "d" = "a.d" :=
  ⟨c7_relative_rewrite ["a", "b", "c"] "d" 1 (by decide) (by norm_num) (by norm_num),
   c7_relative_rewrite ["a", "b", "c"] "d" 2 (by decide) (by norm_num) (by norm_num),
   rfl, rfl⟩
